import Mathlib

/-!
Verification development for the dialogue-state refinement core of the
synthetic-dialogue generator (file `dialogue_acts` of the repository).
The predicate algebra, grounding checks, query refinement and the
recommendation helpers are embedded shallowly; external expression-tree
primitives (ThingTalk `optimize`, `SlotBag`, `arraySubset`,
`filterUsesParam`, `resolveProjection`) are modelled from the spec where
their source is not part of the repository snapshot.
-/

/-- A ThingTalk value as observed by the dialogue core: a scalar string,
a scalar number, or an array of values. -/
inductive Value where
  | str (s : String)
  | num (n : Int)
  | arr (elems : List Value)

mutual

/-- Structural equality on values, embedding `Ast.Value.equals` (and the
`toJS()` identity comparison used for scalar constants). -/
def valueBeq : Value → Value → Bool
  | .str a, .str b => a == b
  | .num a, .num b => a == b
  | .arr a, .arr b => valueListBeq a b
  | _, _ => false

/-- Pointwise structural equality on value lists. -/
def valueListBeq : List Value → List Value → Bool
  | [], [] => true
  | x :: xs, y :: ys => valueBeq x y && valueListBeq xs ys
  | _, _ => false

end

mutual

theorem valueBeq_refl : (a : Value) → valueBeq a a = true
  | .str _ => by simp [valueBeq]
  | .num _ => by simp [valueBeq]
  | .arr l => by simp [valueBeq, valueListBeq_refl l]

theorem valueListBeq_refl : (l : List Value) → valueListBeq l l = true
  | [] => by simp [valueListBeq]
  | x :: xs => by simp [valueListBeq, valueBeq_refl x, valueListBeq_refl xs]

end

mutual

theorem valueBeq_eq : (a b : Value) → valueBeq a b = true → a = b
  | .str _, b, h => by cases b <;> simp_all [valueBeq]
  | .num _, b, h => by cases b <;> simp_all [valueBeq]
  | .arr l, b, h => by
      cases b <;> simp [valueBeq] at h
      exact congrArg Value.arr (valueListBeq_eq l _ h)

theorem valueListBeq_eq : (l1 l2 : List Value) → valueListBeq l1 l2 = true → l1 = l2
  | [], l2, h => by cases l2 <;> simp_all [valueListBeq]
  | x :: xs, l2, h => by
      cases l2 with
      | nil => simp [valueListBeq] at h
      | cons y ys =>
          simp [valueListBeq] at h
          rw [valueBeq_eq x y h.1, valueListBeq_eq xs ys h.2]

end

theorem valueBeq_iff (a b : Value) : valueBeq a b = true ↔ a = b :=
  ⟨valueBeq_eq a b, fun h => h ▸ valueBeq_refl a⟩

/-- A ThingTalk boolean (filter) expression, exactly the variants the
dialogue core distinguishes: `True`, `False`, `Atom(name, operator, value)`,
`DontCare(name)`, `Not`, `And`, `Or`, `External` (with its subfilter) and
`Compute`. -/
inductive BoolExp where
  | true
  | false
  | atom (name : String) (op : String) (value : Value)
  | dontCare (name : String)
  | not (e : BoolExp)
  | and (operands : List BoolExp)
  | or (operands : List BoolExp)
  | external (subfilter : BoolExp)
  | compute

mutual

/-- Structural equality on filters, embedding `Ast.BooleanExpression.equals`. -/
def beqB : BoolExp → BoolExp → Bool
  | .true, .true => Bool.true
  | .false, .false => Bool.true
  | .atom n o v, .atom n2 o2 v2 => n == n2 && o == o2 && valueBeq v v2
  | .dontCare n, .dontCare n2 => n == n2
  | .not e, .not e2 => beqB e e2
  | .and xs, .and ys => beqListB xs ys
  | .or xs, .or ys => beqListB xs ys
  | .external s1, .external s2 => beqB s1 s2
  | .compute, .compute => Bool.true
  | _, _ => Bool.false

/-- Pointwise structural equality on filter lists. -/
def beqListB : List BoolExp → List BoolExp → Bool
  | [], [] => Bool.true
  | x :: xs, y :: ys => beqB x y && beqListB xs ys
  | _, _ => Bool.false

end

mutual

theorem beqB_refl : (a : BoolExp) → beqB a a = true
  | .true => by simp [beqB]
  | .false => by simp [beqB]
  | .atom n o v => by simp [beqB, valueBeq_refl v]
  | .dontCare _ => by simp [beqB]
  | .not e => by simp [beqB, beqB_refl e]
  | .and xs => by simp [beqB, beqListB_refl xs]
  | .or xs => by simp [beqB, beqListB_refl xs]
  | .external s => by simp [beqB, beqB_refl s]
  | .compute => by simp [beqB]

theorem beqListB_refl : (l : List BoolExp) → beqListB l l = true
  | [] => by simp [beqListB]
  | x :: xs => by simp [beqListB, beqB_refl x, beqListB_refl xs]

end

mutual

theorem beqB_eq : (a b : BoolExp) → beqB a b = true → a = b
  | .true, b, h => by cases b <;> simp_all [beqB]
  | .false, b, h => by cases b <;> simp_all [beqB]
  | .atom n o v, b, h => by
      cases b <;> simp [beqB] at h
      rw [h.1.1, h.1.2, valueBeq_eq v _ h.2]
  | .dontCare n, b, h => by cases b <;> simp_all [beqB]
  | .not e, b, h => by
      cases b <;> simp [beqB] at h
      exact congrArg BoolExp.not (beqB_eq e _ h)
  | .and xs, b, h => by
      cases b <;> simp [beqB] at h
      exact congrArg BoolExp.and (beqListB_eq xs _ h)
  | .or xs, b, h => by
      cases b <;> simp [beqB] at h
      exact congrArg BoolExp.or (beqListB_eq xs _ h)
  | .external s, b, h => by
      cases b <;> simp [beqB] at h
      exact congrArg BoolExp.external (beqB_eq s _ h)
  | .compute, b, h => by cases b <;> simp_all [beqB]

theorem beqListB_eq : (l1 l2 : List BoolExp) → beqListB l1 l2 = true → l1 = l2
  | [], l2, h => by cases l2 <;> simp_all [beqListB]
  | x :: xs, l2, h => by
      cases l2 with
      | nil => simp [beqListB] at h
      | cons y ys =>
          simp [beqListB] at h
          rw [beqB_eq x y h.1, beqListB_eq xs ys h.2]

end

theorem beqB_iff (a b : BoolExp) : beqB a b = true ↔ a = b :=
  ⟨beqB_eq a b, fun h => h ▸ beqB_refl a⟩

/-- Recognizer for the constant `True`. -/
def isTrueB : BoolExp → Bool
  | .true => Bool.true
  | _ => Bool.false

/-- Recognizer for the constant `False`. -/
def isFalseB : BoolExp → Bool
  | .false => Bool.true
  | _ => Bool.false

/-- Recognizer for `And` nodes. -/
def isAndB : BoolExp → Bool
  | .and _ => Bool.true
  | _ => Bool.false

/-- Recognizer for `Or` nodes. -/
def isOrB : BoolExp → Bool
  | .or _ => Bool.true
  | _ => Bool.false

/-- Recognizer for `DontCare` nodes. -/
def isDontCareB : BoolExp → Bool
  | .dontCare _ => Bool.true
  | _ => Bool.false

/-- Recognizer for `Atom` nodes. -/
def isAtomB : BoolExp → Bool
  | .atom .. => Bool.true
  | _ => Bool.false

/-- Flattening step of the simplifier for `And`: inline nested `And`
operand lists and drop the neutral element `True`. -/
def flattenAnd : List BoolExp → List BoolExp
  | [] => []
  | x :: xs =>
    (match x with
     | .and ops => ops
     | .true => []
     | e => [e]) ++ flattenAnd xs

/-- Flattening step of the simplifier for `Or`: inline nested `Or`
operand lists and drop the neutral element `False`. -/
def flattenOr : List BoolExp → List BoolExp
  | [] => []
  | x :: xs =>
    (match x with
     | .or ops => ops
     | .false => []
     | e => [e]) ++ flattenOr xs

/-- Rebuild an `And` from flattened operands, absorbing `False` and
collapsing empty/singleton lists. -/
def mkAnd (l : List BoolExp) : BoolExp :=
  if l.any isFalseB then .false
  else
    match l with
    | [] => .true
    | [x] => x
    | _ => .and l

/-- Rebuild an `Or` from flattened operands, absorbing `True` and
collapsing empty/singleton lists. -/
def mkOr (l : List BoolExp) : BoolExp :=
  if l.any isTrueB then .true
  else
    match l with
    | [] => .false
    | [x] => x
    | _ => .or l

mutual

/-- Modelled from the spec: the external expression-tree primitive
`optimize` (ThingTalk simplification), whose stated invariant is that
`And`/`Or` are flattened (no direct nesting of the same kind) and absorb
`True`/`False`; negations of constants collapse and `External` subfilters
are simplified in place. -/
def optimize : BoolExp → BoolExp
  | .and ops => mkAnd (flattenAnd (optimizeList ops))
  | .or ops => mkOr (flattenOr (optimizeList ops))
  | .not e =>
    match optimize e with
    | .true => .false
    | .false => .true
    | e2 => .not e2
  | .external s => .external (optimize s)
  | e => e

/-- Pointwise simplification of an operand list. -/
def optimizeList : List BoolExp → List BoolExp
  | [] => []
  | x :: xs => optimize x :: optimizeList xs

end

/-- An operand fit to sit directly under a simplified `And`. -/
def andElemOk (x : BoolExp) : Bool := !isAndB x && !isTrueB x && !isFalseB x

/-- An operand fit to sit directly under a simplified `Or`. -/
def orElemOk (x : BoolExp) : Bool := !isOrB x && !isTrueB x && !isFalseB x

/-- A list with at least two elements. -/
def twoOrMore : List BoolExp → Bool
  | _ :: _ :: _ => Bool.true
  | _ => Bool.false

mutual

/-- Characterization of simplifier fixed points. -/
def isOptB : BoolExp → Bool
  | .not e => isOptB e && !isTrueB e && !isFalseB e
  | .and ops => twoOrMore ops && isOptListB ops && ops.all andElemOk
  | .or ops => twoOrMore ops && isOptListB ops && ops.all orElemOk
  | .external s => isOptB s
  | _ => Bool.true

/-- All elements are simplifier fixed points. -/
def isOptListB : List BoolExp → Bool
  | [] => Bool.true
  | x :: xs => isOptB x && isOptListB xs

end

theorem isOptListB_mem : (l : List BoolExp) → (isOptListB l = true ↔ ∀ x ∈ l, isOptB x = true)
  | [] => by simp [isOptListB]
  | x :: xs => by simp [isOptListB, isOptListB_mem xs]

theorem flattenAnd_good : (l : List BoolExp) → (∀ y ∈ l, isOptB y = true) →
    ∀ x ∈ flattenAnd l, isOptB x = true ∧ isAndB x = false ∧ isTrueB x = false
  | [], _, x, hx => by simp [flattenAnd] at hx
  | y :: ys, H, x, hx => by
      have tail := flattenAnd_good ys (fun z hz => H z (by simp [hz]))
      have hy := H y (by simp)
      cases y <;> simp [flattenAnd] at hx <;>
        first
        | (rcases hx with hx | hx
           · subst hx
             exact ⟨hy, rfl, rfl⟩
           · exact tail x hx)
        | exact tail x hx
        | (rcases hx with hx | hx
           · simp only [isOptB, Bool.and_eq_true, List.all_eq_true] at hy
             refine ⟨(isOptListB_mem _).1 hy.1.2 x hx, ?_, ?_⟩
             · have := hy.2 x hx
               simp [andElemOk] at this
               simp [this.1.1]
             · have := hy.2 x hx
               simp [andElemOk] at this
               simp [this.1.2]
           · exact tail x hx)

theorem flattenOr_good : (l : List BoolExp) → (∀ y ∈ l, isOptB y = true) →
    ∀ x ∈ flattenOr l, isOptB x = true ∧ isOrB x = false ∧ isFalseB x = false
  | [], _, x, hx => by simp [flattenOr] at hx
  | y :: ys, H, x, hx => by
      have tail := flattenOr_good ys (fun z hz => H z (by simp [hz]))
      have hy := H y (by simp)
      cases y <;> simp [flattenOr] at hx <;>
        first
        | (rcases hx with hx | hx
           · subst hx
             exact ⟨hy, rfl, rfl⟩
           · exact tail x hx)
        | exact tail x hx
        | (rcases hx with hx | hx
           · simp only [isOptB, Bool.and_eq_true, List.all_eq_true] at hy
             refine ⟨(isOptListB_mem _).1 hy.1.2 x hx, ?_, ?_⟩
             · have := hy.2 x hx
               simp [orElemOk] at this
               simp [this.1.1]
             · have := hy.2 x hx
               simp [orElemOk] at this
               simp [this.2]
           · exact tail x hx)

theorem mkAnd_isOpt (l : List BoolExp)
    (H : ∀ x ∈ l, isOptB x = true ∧ isAndB x = false ∧ isTrueB x = false) :
    isOptB (mkAnd l) = true := by
  unfold mkAnd
  by_cases hf : l.any isFalseB = true
  · simp [hf, isOptB]
  · simp only [hf, Bool.false_eq_true, if_false]
    match l with
    | [] => simp [isOptB]
    | [x] => exact (H x (by simp)).1
    | a :: b :: rest =>
        simp only [List.any_eq_true, not_exists] at hf
        push_neg at hf
        simp only [isOptB, Bool.and_eq_true, List.all_eq_true]
        refine ⟨⟨rfl, ?_⟩, ?_⟩
        · exact (isOptListB_mem _).2 (fun x hx => (H x hx).1)
        · intro x hx
          have h1 := H x hx
          have h2 : isFalseB x = false := by
            have := hf x hx
            simp at this
            exact this
          simp [andElemOk, h1.2.1, h1.2.2, h2]

theorem mkOr_isOpt (l : List BoolExp)
    (H : ∀ x ∈ l, isOptB x = true ∧ isOrB x = false ∧ isFalseB x = false) :
    isOptB (mkOr l) = true := by
  unfold mkOr
  by_cases hf : l.any isTrueB = true
  · simp [hf, isOptB]
  · simp only [hf, Bool.false_eq_true, if_false]
    match l with
    | [] => simp [isOptB]
    | [x] => exact (H x (by simp)).1
    | a :: b :: rest =>
        simp only [List.any_eq_true, not_exists] at hf
        push_neg at hf
        simp only [isOptB, Bool.and_eq_true, List.all_eq_true]
        refine ⟨⟨rfl, ?_⟩, ?_⟩
        · exact (isOptListB_mem _).2 (fun x hx => (H x hx).1)
        · intro x hx
          have h1 := H x hx
          have h2 : isTrueB x = false := by
            have := hf x hx
            simp at this
            exact this
          simp [orElemOk, h1.2.1, h1.2.2, h2]

mutual

theorem optimize_isOpt : (f : BoolExp) → isOptB (optimize f) = true
  | .true => by simp [optimize, isOptB]
  | .false => by simp [optimize, isOptB]
  | .atom n o v => by simp [optimize, isOptB]
  | .dontCare _ => by simp [optimize, isOptB]
  | .compute => by simp [optimize, isOptB]
  | .external s => by simp [optimize, isOptB, optimize_isOpt s]
  | .not e => by
      have he := optimize_isOpt e
      cases h : optimize e <;> rw [h] at he <;>
        simp_all [optimize, isOptB, isTrueB, isFalseB]
  | .and ops => by
      have hl := optimizeList_isOpt ops
      exact mkAnd_isOpt _ (flattenAnd_good _ hl)
  | .or ops => by
      have hl := optimizeList_isOpt ops
      exact mkOr_isOpt _ (flattenOr_good _ hl)

theorem optimizeList_isOpt : (l : List BoolExp) → ∀ x ∈ optimizeList l, isOptB x = true
  | [], x, hx => by simp [optimizeList] at hx
  | y :: ys, x, hx => by
      simp only [optimizeList, List.mem_cons] at hx
      rcases hx with hx | hx
      · rw [hx]
        exact optimize_isOpt y
      · exact optimizeList_isOpt ys x hx

end

theorem flattenAnd_eq_self : (l : List BoolExp) →
    (∀ x ∈ l, isAndB x = false ∧ isTrueB x = false) → flattenAnd l = l
  | [], _ => rfl
  | y :: ys, H => by
      have hy := H y (by simp)
      have tail := flattenAnd_eq_self ys (fun z hz => H z (by simp [hz]))
      cases y <;> simp_all [flattenAnd, isAndB, isTrueB]

theorem flattenOr_eq_self : (l : List BoolExp) →
    (∀ x ∈ l, isOrB x = false ∧ isFalseB x = false) → flattenOr l = l
  | [], _ => rfl
  | y :: ys, H => by
      have hy := H y (by simp)
      have tail := flattenOr_eq_self ys (fun z hz => H z (by simp [hz]))
      cases y <;> simp_all [flattenOr, isOrB, isFalseB]

mutual

theorem optimize_fix : (f : BoolExp) → isOptB f = true → optimize f = f
  | .true, _ => rfl
  | .false, _ => rfl
  | .atom n o v, _ => rfl
  | .dontCare _, _ => rfl
  | .compute, _ => rfl
  | .external s, h => by
      simp only [isOptB] at h
      simp [optimize, optimize_fix s h]
  | .not e, h => by
      simp only [isOptB, Bool.and_eq_true, Bool.not_eq_true'] at h
      have he := optimize_fix e h.1.1
      rw [optimize, he]
      cases e <;> simp_all [isTrueB, isFalseB]
  | .and ops, h => by
      simp only [isOptB, Bool.and_eq_true, List.all_eq_true] at h
      have hmem := (isOptListB_mem _).1 h.1.2
      have hl : optimizeList ops = ops := optimizeList_fix ops hmem
      have helem : ∀ x ∈ ops, isAndB x = false ∧ isTrueB x = false := by
        intro x hx
        have := h.2 x hx
        simp [andElemOk] at this
        exact ⟨by simp [this.1.1], by simp [this.1.2]⟩
      have hf : flattenAnd ops = ops := flattenAnd_eq_self ops helem
      have hnf : ops.any isFalseB = false := by
        simp only [List.any_eq_false]
        intro x hx
        have := h.2 x hx
        simp [andElemOk] at this
        simp [this.2]
      rw [optimize, hl, hf]
      unfold mkAnd
      rw [hnf]
      match ops, h.1.1 with
      | a :: b :: rest, _ => simp
  | .or ops, h => by
      simp only [isOptB, Bool.and_eq_true, List.all_eq_true] at h
      have hmem := (isOptListB_mem _).1 h.1.2
      have hl : optimizeList ops = ops := optimizeList_fix ops hmem
      have helem : ∀ x ∈ ops, isOrB x = false ∧ isFalseB x = false := by
        intro x hx
        have := h.2 x hx
        simp [orElemOk] at this
        exact ⟨by simp [this.1.1], by simp [this.2]⟩
      have hf : flattenOr ops = ops := flattenOr_eq_self ops helem
      have hnt : ops.any isTrueB = false := by
        simp only [List.any_eq_false]
        intro x hx
        have := h.2 x hx
        simp [orElemOk] at this
        simp [this.1.2]
      rw [optimize, hl, hf]
      unfold mkOr
      rw [hnt]
      match ops, h.1.1 with
      | a :: b :: rest, _ => simp

theorem optimizeList_fix : (l : List BoolExp) → (∀ x ∈ l, isOptB x = true) → optimizeList l = l
  | [], _ => rfl
  | x :: xs, H => by
      rw [optimizeList, optimize_fix x (H x (by simp)),
        optimizeList_fix xs (fun y hy => H y (by simp [hy]))]

end

/-- The modelled simplifier is idempotent (testable property of the spec). -/
theorem optimize_idem (f : BoolExp) : optimize (optimize f) = optimize f :=
  optimize_fix _ (optimize_isOpt f)

/-- A materialized result row: the ordered field-to-value record stored in
`result.value`. -/
structure ResultRow where
  value : List (String × Value)

/-- Property access `row.value[name]` (absent field means `undefined`). -/
def rowGet (row : ResultRow) (name : String) : Option Value :=
  (row.value.find? (fun p => p.1 == name)).map (fun p => p.2)

mutual

/-- Embedding of `isFilterCompatibleWithResult(topResult, filter)`:
`And` requires all operands, `Or` some operand, `Not` negates,
`True`/`DontCare` hold, `False` fails, `External`/`Compute` approximate to
true; an `Atom` fails when the row lacks the field, compares structural
equality for `==`/`=~`, and approximates to true for other operators. -/
def isFilterCompatibleWithResult (top : ResultRow) : BoolExp → Bool
  | .true => Bool.true
  | .dontCare _ => Bool.true
  | .false => Bool.false
  | .and ops => compatAll top ops
  | .or ops => compatAny top ops
  | .not e => !isFilterCompatibleWithResult top e
  | .external _ => Bool.true
  | .compute => Bool.true
  | .atom n o v =>
    match rowGet top n with
    | none => Bool.false
    | some rv => if o == "==" || o == "=~" then valueBeq rv v else Bool.true

/-- Conjunction of compatibility over operand lists. -/
def compatAll (top : ResultRow) : List BoolExp → Bool
  | [] => Bool.true
  | x :: xs => isFilterCompatibleWithResult top x && compatAll top xs

/-- Disjunction of compatibility over operand lists. -/
def compatAny (top : ResultRow) : List BoolExp → Bool
  | [] => Bool.false
  | x :: xs => isFilterCompatibleWithResult top x || compatAny top xs

end

theorem compatAll_eq_all (top : ResultRow) : (l : List BoolExp) →
    compatAll top l = l.all (isFilterCompatibleWithResult top)
  | [] => rfl
  | x :: xs => by simp [compatAll, compatAll_eq_all top xs]

theorem compatAny_eq_any (top : ResultRow) : (l : List BoolExp) →
    compatAny top l = l.any (isFilterCompatibleWithResult top)
  | [] => rfl
  | x :: xs => by simp [compatAny, compatAny_eq_any top xs]

theorem compat_mkAnd (top : ResultRow) (l : List BoolExp) :
    isFilterCompatibleWithResult top (mkAnd l) = compatAll top l := by
  unfold mkAnd
  by_cases hf : l.any isFalseB = true
  · simp only [hf, if_true]
    rcases List.any_eq_true.1 hf with ⟨x, hx, hfx⟩
    have hxf : x = BoolExp.false := by
      cases x <;> simp_all [isFalseB]
    rw [compatAll_eq_all]
    have : l.all (isFilterCompatibleWithResult top) = false := by
      rw [List.all_eq_false]
      exact ⟨x, hx, by rw [hxf]; simp [isFilterCompatibleWithResult]⟩
    rw [this]
    simp [isFilterCompatibleWithResult]
  · simp only [hf, Bool.false_eq_true, if_false]
    match l with
    | [] => simp [isFilterCompatibleWithResult, compatAll]
    | [x] => simp [compatAll]
    | a :: b :: rest => simp [isFilterCompatibleWithResult]

theorem compat_mkOr (top : ResultRow) (l : List BoolExp) :
    isFilterCompatibleWithResult top (mkOr l) = compatAny top l := by
  unfold mkOr
  by_cases ht : l.any isTrueB = true
  · simp only [ht, if_true]
    rcases List.any_eq_true.1 ht with ⟨x, hx, htx⟩
    have hxt : x = BoolExp.true := by
      cases x <;> simp_all [isTrueB]
    rw [compatAny_eq_any]
    have : l.any (isFilterCompatibleWithResult top) = true := by
      rw [List.any_eq_true]
      exact ⟨x, hx, by rw [hxt]; simp [isFilterCompatibleWithResult]⟩
    rw [this]
    simp [isFilterCompatibleWithResult]
  · simp only [ht, Bool.false_eq_true, if_false]
    match l with
    | [] => simp [isFilterCompatibleWithResult, compatAny]
    | [x] => simp [compatAny]
    | a :: b :: rest => simp [isFilterCompatibleWithResult]

theorem compatAll_append (top : ResultRow) : (l1 l2 : List BoolExp) →
    compatAll top (l1 ++ l2) = (compatAll top l1 && compatAll top l2)
  | [], l2 => by simp [compatAll]
  | x :: xs, l2 => by
      simp [compatAll, compatAll_append top xs l2, Bool.and_assoc]

theorem compatAny_append (top : ResultRow) : (l1 l2 : List BoolExp) →
    compatAny top (l1 ++ l2) = (compatAny top l1 || compatAny top l2)
  | [], l2 => by simp [compatAny]
  | x :: xs, l2 => by
      simp [compatAny, compatAny_append top xs l2, Bool.or_assoc]

theorem compat_flattenAnd (top : ResultRow) : (l : List BoolExp) →
    compatAll top (flattenAnd l) = compatAll top l
  | [] => rfl
  | y :: ys => by
      have tail := compat_flattenAnd top ys
      cases y <;>
        simp [flattenAnd, compatAll, compatAll_append, tail,
          isFilterCompatibleWithResult]

theorem compat_flattenOr (top : ResultRow) : (l : List BoolExp) →
    compatAny top (flattenOr l) = compatAny top l
  | [] => rfl
  | y :: ys => by
      have tail := compat_flattenOr top ys
      cases y <;>
        simp [flattenOr, compatAny, compatAny_append, tail,
          isFilterCompatibleWithResult]

mutual

theorem compat_optimize (top : ResultRow) : (f : BoolExp) →
    isFilterCompatibleWithResult top (optimize f) = isFilterCompatibleWithResult top f
  | .true => rfl
  | .false => rfl
  | .atom n o v => rfl
  | .dontCare _ => rfl
  | .compute => rfl
  | .external s => by simp [optimize, isFilterCompatibleWithResult]
  | .not e => by
      have he := compat_optimize top e
      cases h : optimize e <;> rw [h] at he <;>
        simp_all [optimize, isFilterCompatibleWithResult]
  | .and ops => by
      rw [optimize, compat_mkAnd, compat_flattenAnd,
        compatList_optimize top ops |>.1]
      rfl
  | .or ops => by
      rw [optimize, compat_mkOr, compat_flattenOr,
        compatList_optimize top ops |>.2]
      rfl

theorem compatList_optimize (top : ResultRow) : (l : List BoolExp) →
    compatAll top (optimizeList l) = compatAll top l ∧
      compatAny top (optimizeList l) = compatAny top l
  | [] => ⟨rfl, rfl⟩
  | x :: xs => by
      have hx := compat_optimize top x
      have hxs := compatList_optimize top xs
      constructor
      · simp [optimizeList, compatAll, hx, hxs.1]
      · simp [optimizeList, compatAny, hx, hxs.2]

end

/-- Modelled from the spec: a slot bag (module `slot_bag`, not part of the
snapshot) — an ordered field-to-value mapping scoped to one schema, with
unique keys; the schema's function identity is `class.name + ":" + name`. -/
structure SlotBag where
  schemaClass : String
  schemaName : String
  slots : List (String × Value)

/-- Embedding of `bag.has(name)`. -/
def SlotBag.has (bag : SlotBag) (name : String) : Bool :=
  bag.slots.any (fun p => p.1 == name)

/-- Embedding of `bag.get(name)`. -/
def SlotBag.get (bag : SlotBag) (name : String) : Option Value :=
  (bag.slots.find? (fun p => p.1 == name)).map (fun p => p.2)

/-- Embedding of `bag.keys()`. -/
def SlotBag.keys (bag : SlotBag) : List String :=
  bag.slots.map (fun p => p.1)

/-- Modelled from the spec: `arraySubset(small, big)` from `array_utils`
(not part of the snapshot) — every element of the first array occurs in
the second. -/
def arraySubset (small big : List Value) : Bool :=
  small.all (fun x => big.any (fun y => valueBeq x y))

/-- The per-field test of `isInfoPhraseCompatibleWithResult`: the row must
carry the field; two arrays compare by subset containment, any other pair
by structural equality. -/
def slotValueCompatible (top : ResultRow) (pname : String) (infoValue : Value) : Bool :=
  match rowGet top pname with
  | none => Bool.false
  | some resultValue =>
    match resultValue, infoValue with
    | .arr rv, .arr iv => arraySubset iv rv
    | rv, iv => valueBeq rv iv

/-- Embedding of `isInfoPhraseCompatibleWithResult(topResult, info)`:
every field of the bag must be carried compatibly by this single row. -/
def isInfoPhraseCompatibleWithResult (top : ResultRow) (info : SlotBag) : Bool :=
  info.slots.all (fun p => slotValueCompatible top p.1 p.2)

/-- The top-3 grounding loop of `checkInfoPhrase`: the info phrase must be
compatible with at least one of the first three results. -/
def infoCompatibleTop3 (results : List ResultRow) (info : SlotBag) : Bool :=
  (results.take 3).any (fun r => isInfoPhraseCompatibleWithResult r info)

/-- The top-3 grounding check as the spec's sentence words it, for
comparison with the implementation: for each field of the bag, at least
one of the first three rows carries that field compatibly (rows may
differ per field). -/
def infoCompatibleTop3Spec (results : List ResultRow) (info : SlotBag) : Bool :=
  info.slots.all (fun p => (results.take 3).any (fun r => slotValueCompatible r p.1 p.2))

/-- An input parameter binding of an action invocation. -/
structure InParam where
  name : String
  value : Value

/-- An action invocation with its bound input parameters. -/
structure Invocation where
  in_params : List InParam

/-- The `ctx.nextInfo` record, as far as the embedded functions consult it. -/
structure NextInfo where
  isAction : Bool

/-- Read-only view of the dialogue context (the `getContextInfo` result)
restricted to the fields the embedded functions consult; `projection`
stands for `ctx.resultInfo.projection` and `nextActionInvocation` models
the external `getActionInvocation(ctx.next)` accessor of `state_manip`. -/
structure ContextInfo where
  currentFunction : String
  projection : Option (List String)
  results : List ResultRow
  nextInfo : Option NextInfo
  nextActionInvocation : Option Invocation

/-- Embedding of `checkInfoPhrase(ctx, info)`: `Except.error ()` models the
`assert(topResult)` crash on an empty result list, `Except.ok none` the
null rejections, `Except.ok (some info)` acceptance. -/
def checkInfoPhrase (ctx : ContextInfo) (info : SlotBag) :
    Except Unit (Option SlotBag) :=
  if ctx.currentFunction != info.schemaClass ++ ":" ++ info.schemaName then .ok none
  else
    match ctx.projection with
    | some proj =>
      if proj.all (fun name => info.has name) then
        if infoCompatibleTop3 ctx.results info then .ok (some info) else .ok none
      else .ok none
    | none =>
      match ctx.results with
      | [] => .error ()
      | top :: _ =>
        if info.keys.all (fun name => (rowGet top name).isSome) then
          if infoCompatibleTop3 ctx.results info then .ok (some info) else .ok none
        else .ok none

/-- The record returned by `makeActionRecommendation`. -/
structure ActionRecResult where
  topResult : ResultRow
  info : Option SlotBag
  action : Invocation

/-- Embedding of `makeActionRecommendation(ctx, action)`; `Except.error ()`
models the assertion that the context has results. -/
def makeActionRecommendation (ctx : ContextInfo) (action : Invocation) :
    Except Unit (Option ActionRecResult) :=
  match ctx.results with
  | [] => .error ()
  | top :: _ =>
    match rowGet top "id" with
    | none => .ok none
    | some idv =>
      if action.in_params.any (fun p => valueBeq p.value idv) then
        .ok (some ⟨top, none, action⟩)
      else .ok none

/-- The record returned by `makeRecommendation`. -/
structure RecResult where
  topResult : ResultRow
  ctx : ContextInfo
  info : Option SlotBag
  action : Option Invocation

/-- Embedding of `makeRecommendation(ctx, name)`; `Except.error ()` models
the assertion that the context has results. -/
def makeRecommendation (ctx : ContextInfo) (name : Value) :
    Except Unit (Option RecResult) :=
  match ctx.results with
  | [] => .error ()
  | top :: _ =>
    match rowGet top "id" with
    | none => .ok none
    | some idv =>
      if valueBeq idv name then
        .ok (some ⟨top, ctx, none,
          match ctx.nextInfo with
          | some ni => if ni.isAction then ctx.nextActionInvocation else none
          | none => none⟩)
      else .ok none

mutual

/-- Embedding of `getParamsInFilter(filter)`: the parameter names of all
`Atom`/`DontCare` nodes, collected without descending into `External`
subfilters (the JS `Set` is modelled by list membership). -/
def getParamsInFilter : BoolExp → List String
  | .atom n _ _ => [n]
  | .dontCare n => [n]
  | .not e => getParamsInFilter e
  | .and ops => paramsList ops
  | .or ops => paramsList ops
  | _ => []

/-- Parameter collection over operand lists. -/
def paramsList : List BoolExp → List String
  | [] => []
  | x :: xs => getParamsInFilter x ++ paramsList xs

end

/-- Embedding of `setsIntersect(s1, s2)`. -/
def setsIntersect (s1 s2 : List String) : Bool :=
  s1.any (fun el => s2.contains el)

theorem setsIntersect_iff (s1 s2 : List String) :
    setsIntersect s1 s2 = true ↔ ∃ x, x ∈ s1 ∧ x ∈ s2 := by
  simp [setsIntersect, List.any_eq_true]

mutual

/-- Embedding of `neutralizeIDFilter(ast)`: replace every `id == _` atom
by `True`, recurse through `Not`/`And`/`Or`, leave `True`/`False`/
`DontCare`/`Compute`/`External` and all other atoms unchanged. -/
def neutralizeIDFilter : BoolExp → BoolExp
  | .not e => .not (neutralizeIDFilter e)
  | .or ops => .or (neutralizeList ops)
  | .and ops => .and (neutralizeList ops)
  | .atom n o v => if n == "id" && o == "==" then .true else .atom n o v
  | e => e

/-- Neutralization mapped over operand lists. -/
def neutralizeList : List BoolExp → List BoolExp
  | [] => []
  | x :: xs => neutralizeIDFilter x :: neutralizeList xs

end

/-- Embedding of `refineFilterToAnswerQuestion(ctxFilter, refinedFilter)`:
reject when the two parameter sets intersect, else conjoin the
identity-neutralized context filter with the refinement and simplify. -/
def refineFilterToAnswerQuestion (ctxFilter refinedFilter : BoolExp) : Option BoolExp :=
  if setsIntersect (getParamsInFilter ctxFilter) (getParamsInFilter refinedFilter) then none
  else some (optimize (.and [neutralizeIDFilter ctxFilter, refinedFilter]))

/-- JS object insertion with overwrite (`slots[name] = clause`). -/
def slotsPut (l : List (String × BoolExp)) (k : String) (v : BoolExp) :
    List (String × BoolExp) :=
  if l.any (fun p => p.1 == k) then
    l.map (fun p => if p.1 == k then (k, v) else p)
  else l ++ [(k, v)]

/-- JS object property lookup on a slot map. -/
def slotsGet (l : List (String × BoolExp)) (k : String) : Option BoolExp :=
  (l.find? (fun p => p.1 == k)).map (fun p => p.2)

/-- The top-level clause list of a filter: the operands of an `And`,
otherwise the filter itself. -/
def topClauses (f : BoolExp) : List BoolExp :=
  match f with
  | .and ops => ops
  | x => [x]

/-- Embedding of `filterToSlots(filter)`: optimize, then map every
top-level `Atom`/`DontCare` clause under its parameter name. -/
def filterToSlots (f : BoolExp) : List (String × BoolExp) :=
  (topClauses (optimize f)).foldl
    (fun acc op =>
      match op with
      | .atom n _ _ => slotsPut acc n op
      | .dontCare n => slotsPut acc n op
      | _ => acc) []

/-- Embedding of `filterToNegatedSlots(filter)`: optimize, then map every
top-level `Not(Atom)`/`Not(DontCare)` clause under the negated name (the
stored clause is the whole `Not` node). -/
def filterToNegatedSlots (f : BoolExp) : List (String × BoolExp) :=
  (topClauses (optimize f)).foldl
    (fun acc op =>
      match op with
      | .not (.atom n _ _) => slotsPut acc n op
      | .not (.dontCare n) => slotsPut acc n op
      | _ => acc) []

theorem filterToSlots_optimize (f : BoolExp) :
    filterToSlots (optimize f) = filterToSlots f := by
  unfold filterToSlots
  rw [optimize_idem]

theorem filterToNegatedSlots_optimize (f : BoolExp) :
    filterToNegatedSlots (optimize f) = filterToNegatedSlots f := by
  unfold filterToNegatedSlots
  rw [optimize_idem]

/-- Modelled from the spec: `C.filterUsesParam(filter, pname)` from
`ast_manip` (not part of the snapshot) — whether the filter constrains the
parameter, i.e. mentions it in an `Atom`/`DontCare` outside `External`
subfilters. -/
def filterUsesParam (f : BoolExp) (pname : String) : Bool :=
  (getParamsInFilter f).contains pname

mutual

/-- The clause visitor of `refineFilterToChangeFilter`: a context clause
is kept exactly when it contains no `External` sub-predicate and none of
its `Atom`/`DontCare` parameters is used by the refined filter. -/
def clauseGood (ro : BoolExp) : BoolExp → Bool
  | .atom n _ _ => !filterUsesParam ro n
  | .dontCare n => !filterUsesParam ro n
  | .not e => clauseGood ro e
  | .and ops => clauseGoodList ro ops
  | .or ops => clauseGoodList ro ops
  | .external _ => Bool.false
  | _ => Bool.true

/-- The clause visitor folded over operand lists. -/
def clauseGoodList (ro : BoolExp) : List BoolExp → Bool
  | [] => Bool.true
  | x :: xs => clauseGood ro x && clauseGoodList ro xs

end

/-- Embedding of `refineFilterToChangeFilter(ctxFilter, refinedFilter)`:
reject when a common field keeps an identical clause, reject when the
refinement introduces a field absent from the context, else keep the good
context clauses, append the refinement, and simplify. -/
def refineFilterToChangeFilter (ctxFilter refinedFilter : BoolExp) : Option BoolExp :=
  let co := optimize ctxFilter
  let ro := optimize refinedFilter
  let ctxSlots := filterToSlots co
  let refinedSlots := filterToSlots ro
  if ctxSlots.any (fun p =>
      match slotsGet refinedSlots p.1 with
      | some rcl => beqB rcl p.2
      | none => Bool.false) then none
  else if refinedSlots.any (fun p => (slotsGet ctxSlots p.1).isNone) then none
  else
    some (optimize (.and ((topClauses co).filter (clauseGood ro) ++ [ro])))

/-- The context-slot loop of `refineFilterToAnswerQuestionOrChangeFilter`,
walked in insertion order while tracking the at-most-one changed
parameter; `false` means the loop rejected. -/
def aqocfLoopOk (refinedSlots negatedRefinedSlots : List (String × BoolExp)) :
    List (String × BoolExp) → Option String → Bool
  | [], _ => Bool.true
  | (k, cl) :: rest, changed =>
    if (slotsGet negatedRefinedSlots k).isSome then Bool.false
    else
      match slotsGet refinedSlots k with
      | some rcl =>
        if isDontCareB cl then Bool.false
        else if beqB rcl cl then Bool.false
        else if changed.isSome then Bool.false
        else aqocfLoopOk refinedSlots negatedRefinedSlots rest (some k)
      | none => aqocfLoopOk refinedSlots negatedRefinedSlots rest changed

/-- Embedding of `refineFilterToAnswerQuestionOrChangeFilter`: run the
context-slot loop; on success keep the context clauses whose field is not
mentioned in the refinement (identity-neutralized), append the refinement,
and simplify. -/
def refineFilterToAnswerQuestionOrChangeFilter (ctxFilter refinedFilter : BoolExp) :
    Option BoolExp :=
  let co := optimize ctxFilter
  let ro := optimize refinedFilter
  let ctxSlots := filterToSlots co
  let refinedSlots := filterToSlots ro
  let negatedRefinedSlots := filterToNegatedSlots ro
  if aqocfLoopOk refinedSlots negatedRefinedSlots ctxSlots none then
    some (optimize (.and
      ((((topClauses co).filter (fun clause =>
          match clause with
          | .atom n _ _ => !(slotsGet refinedSlots n).isSome
          | .dontCare n => !(slotsGet refinedSlots n).isSome
          | _ => Bool.true)).map neutralizeIDFilter) ++ [ro])))
  else none

/-- A ThingTalk query expression tree over a base invocation, with the
structural node kinds the attachment search distinguishes. Pass-through
kinds carry their traversed child; `projection` additionally carries its
field list and resolved schema, `join` both sides, and `invocation` its
output schema (a field-name list). -/
inductive Table where
  | invocation (schema : List String)
  | filter (table : Table) (pred : BoolExp)
  | projection (table : Table) (args : List String) (schema : List String)
  | sort (table : Table)
  | index (table : Table)
  | slice (table : Table)
  | compute (table : Table)
  | alias (table : Table)
  | join (lhs rhs : Table)
  | aggregation (table : Table)
  | varRef (name : String)
  | resultRef (name : String)
  | sequence (tables : List Table)
  | history (table : Table)
  | window (table : Table)
  | timeSeries (table : Table)

/-- The output schema of a table, as the projection bookkeeping consults
it (join schemas merge; the non-filterable leaves expose none). -/
def Table.schema : Table → List String
  | .invocation s => s
  | .filter t _ => t.schema
  | .projection _ _ s => s
  | .sort t => t.schema
  | .index t => t.schema
  | .slice t => t.schema
  | .compute t => t.schema
  | .alias t => t.schema
  | .join l r => l.schema ++ r.schema
  | .aggregation t => t.schema
  | .varRef _ => []
  | .resultRef _ => []
  | .sequence _ => []
  | .history t => t.schema
  | .window t => t.schema
  | .timeSeries t => t.schema

/-- Recognizer for `Projection` tables. -/
def isProjectionT : Table → Bool
  | .projection .. => Bool.true
  | _ => Bool.false

/-- Recognizer for `Invocation` tables. -/
def isInvocationT : Table → Bool
  | .invocation _ => Bool.true
  | _ => Bool.false

/-- Embedding of `findOrMakeFilterTable(root)`: walk from the root looking
for a `Filter`. `Sequence`/`History`/`Window`/`TimeSeries` throw `NOT
IMPLEMENTED` (modelled `Except.error ()`); `Aggregation`/`VarRef`/
`ResultRef` yield `[null, null]` (modelled `Except.ok none`); pass-through
kinds descend into their child and a `Join` always into its right side; on
reaching the bare invocation a `Filter(invocation, True)` node is made up
and spliced in at the point of discovery. Returns the (possibly
rewritten) root paired with the found or made filter node. -/
def findOrMakeFilterTable : Table → Except Unit (Option (Table × Table))
  | .filter t p => .ok (some (.filter t p, .filter t p))
  | .sequence _ => .error ()
  | .history _ => .error ()
  | .window _ => .error ()
  | .timeSeries _ => .error ()
  | .aggregation _ => .ok none
  | .varRef _ => .ok none
  | .resultRef _ => .ok none
  | .sort t =>
    match findOrMakeFilterTable t with
    | .error e => .error e
    | .ok none => .ok none
    | .ok (some (r, ft)) => .ok (some (.sort r, ft))
  | .index t =>
    match findOrMakeFilterTable t with
    | .error e => .error e
    | .ok none => .ok none
    | .ok (some (r, ft)) => .ok (some (.index r, ft))
  | .slice t =>
    match findOrMakeFilterTable t with
    | .error e => .error e
    | .ok none => .ok none
    | .ok (some (r, ft)) => .ok (some (.slice r, ft))
  | .compute t =>
    match findOrMakeFilterTable t with
    | .error e => .error e
    | .ok none => .ok none
    | .ok (some (r, ft)) => .ok (some (.compute r, ft))
  | .alias t =>
    match findOrMakeFilterTable t with
    | .error e => .error e
    | .ok none => .ok none
    | .ok (some (r, ft)) => .ok (some (.alias r, ft))
  | .projection t args s =>
    match findOrMakeFilterTable t with
    | .error e => .error e
    | .ok none => .ok none
    | .ok (some (r, ft)) => .ok (some (.projection r args s, ft))
  | .join l r =>
    match findOrMakeFilterTable r with
    | .error e => .error e
    | .ok none => .ok none
    | .ok (some (r2, ft)) => .ok (some (.join l r2, ft))
  | .invocation s =>
    .ok (some (.filter (.invocation s) .true, .filter (.invocation s) .true))

/-- One pass-through layer on the attachment-search path: a structural
node whose traversed child slot the search descends into. -/
inductive PassStep where
  | sort
  | index
  | slice
  | compute
  | alias
  | projection (args : List String) (schema : List String)
  | join (lhs : Table)

/-- Rebuild one pass-through layer around a table. -/
def plugStep : PassStep → Table → Table
  | .sort, t => .sort t
  | .index, t => .index t
  | .slice, t => .slice t
  | .compute, t => .compute t
  | .alias, t => .alias t
  | .projection args s, t => .projection t args s
  | .join l, t => .join l t

/-- Rebuild a pass-through spine around a table (head outermost). -/
def plug (p : List PassStep) (t : Table) : Table :=
  p.foldr plugStep t

theorem findOrMake_plugStep (s : PassStep) (t : Table) :
    findOrMakeFilterTable (plugStep s t) =
      match findOrMakeFilterTable t with
      | .error e => .error e
      | .ok none => .ok none
      | .ok (some (r, ft)) => .ok (some (plugStep s r, ft)) := by
  cases s <;>
    (cases h : findOrMakeFilterTable t with
     | error e => simp [plugStep, findOrMakeFilterTable, h]
     | ok o =>
         cases o with
         | none => simp [plugStep, findOrMakeFilterTable, h]
         | some pr =>
             cases pr
             simp [plugStep, findOrMakeFilterTable, h])

theorem findOrMake_plug (p : List PassStep) (t : Table) :
    findOrMakeFilterTable (plug p t) =
      match findOrMakeFilterTable t with
      | .error e => .error e
      | .ok none => .ok none
      | .ok (some (r, ft)) => .ok (some (plug p r, ft)) := by
  induction p with
  | nil =>
      cases h : findOrMakeFilterTable t with
      | error e => simp [plug, h]
      | ok o =>
          cases o with
          | none => simp [plug, h]
          | some pr =>
              cases pr
              simp [plug, h]
  | cons s rest ih =>
      show findOrMakeFilterTable (plugStep s (plug rest t)) = _
      rw [findOrMake_plugStep, ih]
      cases h : findOrMakeFilterTable t with
      | error e => simp
      | ok o =>
          cases o with
          | none => simp
          | some pr =>
              cases pr
              simp [plug]

/-- Replace the predicate of the filter node located by the attachment
search: the functional counterpart of the aliased in-place mutation
`filterTable.filter = refinedFilter` performed on the returned root. -/
def setFoundFilter : Table → BoolExp → Table
  | .filter t _, p => .filter t p
  | .sort t, p => .sort (setFoundFilter t p)
  | .index t, p => .index (setFoundFilter t p)
  | .slice t, p => .slice (setFoundFilter t p)
  | .compute t, p => .compute (setFoundFilter t p)
  | .alias t, p => .alias (setFoundFilter t p)
  | .projection t args s, p => .projection (setFoundFilter t p) args s
  | .join l r, p => .join l (setFoundFilter r p)
  | t, _ => t

/-- Modelled from the spec: `C.resolveProjection(args, schema)` from
`ast_manip` (not part of the snapshot) — the schema of a projection
restricted to the projected fields. -/
def resolveProjection (args : List String) (schema : List String) : List String :=
  schema.filter (fun f => args.contains f)

/-- The abnormal outcomes of `queryRefinement`: the `NOT IMPLEMENTED`
throw of the attachment search; the null dereference at
`assert(filterTable.isFilter && ...)` when the search found no attachment
(the explicit null check is commented out in the source); and any other
failed assertion. -/
inductive QRErr where
  | notImplemented
  | nullFilterTable
  | assertFailed

/-- Embedding of `queryRefinement(ctxTable, newFilter, refineFilter,
newProjection)`. The initial clone is implicit (the embedding is
functional). `Except.ok none` is the rejection path (the refinement
strategy refused); `Except.error` the raised errors. On success the
refined predicate replaces the attachment's, then the projection
bookkeeping runs: an explicit new projection replaces any existing outer
projection; otherwise an existing outer projection drops every field used
by the refined predicate and is removed entirely when it becomes empty. -/
def queryRefinement (ctxTable : Table) (newFilter : BoolExp)
    (refineFilter : BoolExp → BoolExp → Option BoolExp)
    (newProjection : Option (List String)) : Except QRErr (Option Table) :=
  match findOrMakeFilterTable ctxTable with
  | .error _ => .error .notImplemented
  | .ok none => .error .nullFilterTable
  | .ok (some (root, ft)) =>
    match ft with
    | .filter ftable fpred =>
      if !isInvocationT ftable then .error .assertFailed
      else
        match refineFilter fpred newFilter with
        | none => .ok none
        | some refinedFilter =>
          let cloneTable := setFoundFilter root refinedFilter
          match newProjection with
          | some np =>
            let t1 := match cloneTable with
              | .projection c _ _ => c
              | t => t
            if isProjectionT t1 then .error .assertFailed
            else .ok (some (.projection t1 np (resolveProjection np t1.schema)))
          | none =>
            match cloneTable with
            | .projection c args _ =>
              if isProjectionT c then .error .assertFailed
              else
                let np := args.filter (fun pname => !filterUsesParam refinedFilter pname)
                if np.length > 0 then
                  .ok (some (.projection c np (resolveProjection np c.schema)))
                else .ok (some c)
            | t => .ok (some t)
    | _ => .error .assertFailed

mutual

theorem neutralize_idem : (f : BoolExp) →
    neutralizeIDFilter (neutralizeIDFilter f) = neutralizeIDFilter f
  | .true => rfl
  | .false => rfl
  | .compute => rfl
  | .external _ => rfl
  | .dontCare _ => rfl
  | .not e => by simp [neutralizeIDFilter, neutralize_idem e]
  | .and ops => by simp [neutralizeIDFilter, neutralizeList_idem ops]
  | .or ops => by simp [neutralizeIDFilter, neutralizeList_idem ops]
  | .atom n o v => by
      by_cases h : (n == "id" && o == "==") = true
      · simp [neutralizeIDFilter, h]
      · simp [neutralizeIDFilter, h]

theorem neutralizeList_idem : (l : List BoolExp) →
    neutralizeList (neutralizeList l) = neutralizeList l
  | [] => rfl
  | x :: xs => by simp [neutralizeList, neutralize_idem x, neutralizeList_idem xs]

end

mutual

theorem params_neutralize : (f : BoolExp) → (x : String) → x ≠ "id" →
    (x ∈ getParamsInFilter (neutralizeIDFilter f) ↔ x ∈ getParamsInFilter f)
  | .true, _, _ => Iff.rfl
  | .false, _, _ => Iff.rfl
  | .compute, _, _ => Iff.rfl
  | .external _, _, _ => Iff.rfl
  | .dontCare _, _, _ => Iff.rfl
  | .not e, x, hx => by
      simp [neutralizeIDFilter, getParamsInFilter, params_neutralize e x hx]
  | .and ops, x, hx => by
      simp [neutralizeIDFilter, getParamsInFilter, paramsList_neutralize ops x hx]
  | .or ops, x, hx => by
      simp [neutralizeIDFilter, getParamsInFilter, paramsList_neutralize ops x hx]
  | .atom n o v, x, hx => by
      by_cases h : (n == "id" && o == "==") = true
      · simp only [Bool.and_eq_true, beq_iff_eq] at h
        simp [neutralizeIDFilter, h, getParamsInFilter, hx]
      · simp [neutralizeIDFilter, h]

theorem paramsList_neutralize : (l : List BoolExp) → (x : String) → x ≠ "id" →
    (x ∈ paramsList (neutralizeList l) ↔ x ∈ paramsList l)
  | [], _, _ => Iff.rfl
  | y :: ys, x, hx => by
      simp [neutralizeList, paramsList, params_neutralize y x hx,
        paramsList_neutralize ys x hx]

end

theorem slotsGet_none_iff (l : List (String × BoolExp)) (k : String) :
    slotsGet l k = none ↔ k ∉ l.map Prod.fst := by
  unfold slotsGet
  rw [Option.map_eq_none', List.find?_eq_none]
  constructor
  · intro h hk
    rw [List.mem_map] at hk
    rcases hk with ⟨p, hp, hpk⟩
    exact absurd (by simp [hpk]) (h p hp)
  · intro h p hp
    simp only [beq_iff_eq]
    intro hpk
    exact h (List.mem_map.2 ⟨p, hp, hpk⟩)

theorem slotsGet_isSome_iff (l : List (String × BoolExp)) (k : String) :
    (slotsGet l k).isSome = true ↔ k ∈ l.map Prod.fst := by
  rw [Option.isSome_iff_ne_none]
  constructor
  · intro h
    by_contra hk
    exact h ((slotsGet_none_iff l k).2 hk)
  · intro h hn
    exact absurd h ((slotsGet_none_iff l k).1 hn)

theorem mem_of_slotsGet (l : List (String × BoolExp)) (k : String) (c : BoolExp)
    (h : slotsGet l k = some c) : (k, c) ∈ l := by
  unfold slotsGet at h
  rw [Option.map_eq_some'] at h
  rcases h with ⟨a, hfind, hsnd⟩
  have hmem := List.mem_of_find?_eq_some hfind
  have hpred := List.find?_some hfind
  simp only [beq_iff_eq] at hpred
  cases a with
  | mk a1 a2 =>
      simp only at hpred hsnd
      rw [← hpred, ← hsnd]
      exact hmem

theorem slotsPut_nodup (l : List (String × BoolExp)) (k : String) (v : BoolExp)
    (h : (l.map Prod.fst).Nodup) : ((slotsPut l k v).map Prod.fst).Nodup := by
  unfold slotsPut
  by_cases hc : l.any (fun p => p.1 == k) = true
  · simp only [hc, if_true]
    have heq : (l.map (fun p => if p.1 == k then (k, v) else p)).map Prod.fst
        = l.map Prod.fst := by
      rw [List.map_map]
      apply List.map_congr_left
      intro p hp
      by_cases hpk : (p.1 == k) = true
      · simp only [Function.comp_apply, hpk, if_true]
        simp only [beq_iff_eq] at hpk
        exact hpk.symm
      · simp only [beq_iff_eq] at hpk
        simp [Function.comp_apply, hpk]
    rw [heq]
    exact h
  · simp only [hc, Bool.false_eq_true, if_false]
    rw [List.map_append, List.nodup_append]
    refine ⟨h, by simp, ?_⟩
    intro a ha hb
    simp only [List.map_cons, List.map_nil, List.mem_cons, List.not_mem_nil,
      or_false] at hb
    subst hb
    rw [List.mem_map] at ha
    rcases ha with ⟨p, hp, hpk⟩
    exact hc (List.any_eq_true.2 ⟨p, hp, by simp [hpk]⟩)

theorem slotsFold_nodup : (ops : List BoolExp) → (acc : List (String × BoolExp)) →
    ((acc.map Prod.fst).Nodup) →
    (((ops.foldl (fun acc op =>
        match op with
        | .atom n _ _ => slotsPut acc n op
        | .dontCare n => slotsPut acc n op
        | _ => acc) acc)).map Prod.fst).Nodup
  | [], _, h => h
  | op :: rest, acc, h => by
      rw [List.foldl_cons]
      refine slotsFold_nodup rest _ ?_
      cases op <;> first
        | exact h
        | exact slotsPut_nodup _ _ _ h

theorem filterToSlots_nodupKeys (f : BoolExp) :
    ((filterToSlots f).map Prod.fst).Nodup := by
  unfold filterToSlots
  exact slotsFold_nodup _ [] (by simp)

theorem nodupKeys_mem_unique : (l : List (String × BoolExp)) →
    ((l.map Prod.fst).Nodup) → {k : String} → {c c2 : BoolExp} →
    ((k, c) ∈ l) → ((k, c2) ∈ l) → c = c2
  | [], _, _, _, _, hm, _ => by simp at hm
  | (p1, p2) :: ps, h, k, c, c2, hm, hm2 => by
      rw [List.map_cons, List.nodup_cons] at h
      rcases List.mem_cons.1 hm with he | ht
      · rcases List.mem_cons.1 hm2 with he2 | ht2
        · simp only [Prod.mk.injEq] at he he2
          rw [he.2, he2.2]
        · exfalso
          simp only [Prod.mk.injEq] at he
          exact h.1 (he.1 ▸ List.mem_map.2 ⟨(k, c2), ht2, rfl⟩)
      · rcases List.mem_cons.1 hm2 with he2 | ht2
        · exfalso
          simp only [Prod.mk.injEq] at he2
          exact h.1 (he2.1 ▸ List.mem_map.2 ⟨(k, c), ht, rfl⟩)
        · exact nodupKeys_mem_unique ps h.2 ht ht2

theorem slotsGet_of_mem (l : List (String × BoolExp))
    (h : (l.map Prod.fst).Nodup) (k : String) (c : BoolExp)
    (hm : (k, c) ∈ l) : slotsGet l k = some c := by
  have hsome : (slotsGet l k).isSome = true :=
    (slotsGet_isSome_iff l k).2 (List.mem_map.2 ⟨(k, c), hm, rfl⟩)
  rcases Option.isSome_iff_exists.1 hsome with ⟨c2, hc2⟩
  have hm2 := mem_of_slotsGet l k c2 hc2
  rw [hc2, nodupKeys_mem_unique l h hm2 hm]

theorem aqocf_reject (R N : List (String × BoolExp)) :
    (l : List (String × BoolExp)) → (changed : Option String) →
    ((∃ k, k ∈ l.map Prod.fst ∧ k ∈ N.map Prod.fst) ∨
     (∃ k c, (k, c) ∈ l ∧ isDontCareB c = true ∧ (slotsGet R k).isSome = true) ∨
     (∃ k c, (k, c) ∈ l ∧ slotsGet R k = some c) ∨
     (∃ k c, (k, c) ∈ l ∧ (slotsGet R k).isSome = true ∧ changed.isSome = true) ∨
     (∃ k1 c1 k2 c2, (k1, c1) ∈ l ∧ (k2, c2) ∈ l ∧ k1 ≠ k2 ∧
       (slotsGet R k1).isSome = true ∧ (slotsGet R k2).isSome = true)) →
    aqocfLoopOk R N l changed = false
  | [], changed, h => by
      exfalso
      rcases h with ⟨k, hk, _⟩ | ⟨k, c, hk, _⟩ | ⟨k, c, hk, _⟩ | ⟨k, c, hk, _⟩ |
        ⟨k1, c1, k2, c2, hk, _⟩ <;> simp_all
  | (k0, c0) :: rest, changed, h => by
      by_cases hN0 : (slotsGet N k0).isSome = true
      · simp [aqocfLoopOk, hN0]
      · have hN0k : k0 ∉ N.map Prod.fst := fun hk =>
          hN0 ((slotsGet_isSome_iff N k0).2 hk)
        have hmain : ∀ k c, (k, c) ∈ (k0, c0) :: rest → k = k0 ∧ c = c0 ∨ (k, c) ∈ rest := by
          intro k c hm
          rcases List.mem_cons.1 hm with he | ht
          · left
            simpa [Prod.mk.injEq] using he
          · right
            exact ht
        simp only [aqocfLoopOk, hN0, Bool.false_eq_true, if_false]
        cases hR : slotsGet R k0 with
        | some rcl =>
            by_cases hdc : isDontCareB c0 = true
            · simp [hR, hdc]
            · by_cases hbeq : beqB rcl c0 = true
              · simp [hR, hdc, hbeq]
              · by_cases hch : changed.isSome = true
                · simp [hR, hdc, hbeq, hch]
                · have hrec : aqocfLoopOk R N rest (some k0) = false := by
                    refine aqocf_reject R N rest (some k0) ?_
                    rcases h with ⟨k, hk, hkN⟩ | ⟨k, c, hk, hcd, hcR⟩ | ⟨k, c, hk, hcR⟩ |
                        ⟨k, c, hk, hcR, hchg⟩ | ⟨k1, c1, k2, c2, hk1, hk2, hne, hR1, hR2⟩
                    · left
                      refine ⟨k, ?_, hkN⟩
                      simp only [List.map_cons, List.mem_cons] at hk
                      rcases hk with he | hk2
                      · exact absurd (he ▸ hkN) hN0k
                      · exact hk2
                    · rcases hmain k c hk with ⟨he1, he2⟩ | ht
                      · exact absurd (he2 ▸ hcd) (by simp [hdc])
                      · exact Or.inr (Or.inl ⟨k, c, ht, hcd, hcR⟩)
                    · rcases hmain k c hk with ⟨he1, he2⟩ | ht
                      · rw [he1, hR] at hcR
                        have : rcl = c0 := he2 ▸ Option.some.inj hcR
                        exact absurd (this ▸ beqB_refl c0) hbeq
                      · exact Or.inr (Or.inr (Or.inl ⟨k, c, ht, hcR⟩))
                    · exact absurd hchg hch
                    · rcases hmain k1 c1 hk1 with ⟨he1, _⟩ | ht1
                      · rcases hmain k2 c2 hk2 with ⟨he2, _⟩ | ht2
                        · exact absurd (he1.trans he2.symm) hne
                        · exact Or.inr (Or.inr (Or.inr (Or.inl ⟨k2, c2, ht2, hR2, rfl⟩)))
                      · rcases hmain k2 c2 hk2 with ⟨he2, _⟩ | ht2
                        · exact Or.inr (Or.inr (Or.inr (Or.inl ⟨k1, c1, ht1, hR1, rfl⟩)))
                        · exact Or.inr (Or.inr (Or.inr (Or.inr
                            ⟨k1, c1, k2, c2, ht1, ht2, hne, hR1, hR2⟩)))
                  simp [hR, hdc, hbeq, hch, hrec]
        | none =>
            have hrec : aqocfLoopOk R N rest changed = false := by
              refine aqocf_reject R N rest changed ?_
              rcases h with ⟨k, hk, hkN⟩ | ⟨k, c, hk, hcd, hcR⟩ | ⟨k, c, hk, hcR⟩ |
                  ⟨k, c, hk, hcR, hchg⟩ | ⟨k1, c1, k2, c2, hk1, hk2, hne, hR1, hR2⟩
              · left
                refine ⟨k, ?_, hkN⟩
                simp only [List.map_cons, List.mem_cons] at hk
                rcases hk with he | hk2
                · exact absurd (he ▸ hkN) hN0k
                · exact hk2
              · rcases hmain k c hk with ⟨he1, _⟩ | ht
                · rw [he1, hR] at hcR
                  simp at hcR
                · exact Or.inr (Or.inl ⟨k, c, ht, hcd, hcR⟩)
              · rcases hmain k c hk with ⟨he1, _⟩ | ht
                · rw [he1, hR] at hcR
                  simp at hcR
                · exact Or.inr (Or.inr (Or.inl ⟨k, c, ht, hcR⟩))
              · rcases hmain k c hk with ⟨he1, _⟩ | ht
                · rw [he1, hR] at hcR
                  simp at hcR
                · exact Or.inr (Or.inr (Or.inr (Or.inl ⟨k, c, ht, hcR, hchg⟩)))
              · rcases hmain k1 c1 hk1 with ⟨he1, _⟩ | ht1
                · rw [he1, hR] at hR1
                  simp at hR1
                · rcases hmain k2 c2 hk2 with ⟨he2, _⟩ | ht2
                  · rw [he2, hR] at hR2
                    simp at hR2
                  · exact Or.inr (Or.inr (Or.inr (Or.inr
                      ⟨k1, c1, k2, c2, ht1, ht2, hne, hR1, hR2⟩)))
            simp [hR, hrec]

/-- Concrete query tree whose attachment search reaches an `Aggregation`
node: an aggregation over a bare invocation. -/
def c1Tree : Table := .aggregation (.invocation ["a"])

/-- C1 (counterexample): on a tree with no legal filter attachment point
(the search reaches an `Aggregation`), `queryRefinement` raises the
modelled null-dereference error instead of returning a rejection — the
explicit null check is commented out in the source and the subsequent
`assert(filterTable.isFilter && ...)` dereferences the null result. -/
theorem queryRefinement_aggregation_raises :
    queryRefinement c1Tree .true refineFilterToAnswerQuestion none =
      .error .nullFilterTable ∧
    ∀ r : Option Table,
      queryRefinement c1Tree .true refineFilterToAnswerQuestion none ≠ .ok r :=
  ⟨rfl, fun _ h => Except.noConfusion
    ((rfl : (Except.error QRErr.nullFilterTable : Except QRErr (Option Table)) =
      queryRefinement c1Tree .true refineFilterToAnswerQuestion none).trans h)⟩

/-- C1 (amended): for every query expression tree whose attachment search
reaches an `Aggregation`, `VarRef` or `ResultRef` node (no legal filter
attachment point), `queryRefinement` raises an error — the null
dereference at the assertion — rather than returning the null rejection;
no refined query is produced. -/
theorem queryRefinement_rejectionless_error (t : Table) (nf : BoolExp)
    (strat : BoolExp → BoolExp → Option BoolExp) (proj : Option (List String))
    (h : findOrMakeFilterTable t = .ok none) :
    queryRefinement t nf strat proj = .error .nullFilterTable := by
  unfold queryRefinement
  rw [h]

theorem queryRefinement_rejectionless_error_witness :
    queryRefinement (.varRef "q") .true refineFilterToAnswerQuestion none =
      .error .nullFilterTable :=
  queryRefinement_rejectionless_error _ _ _ _ rfl

/-- C8: the attachment search under any pass-through spine returns
`(null, null)` at `Aggregation`/`VarRef`/`ResultRef`, raises the fatal
`NOT IMPLEMENTED` error at `Sequence`/`History`/`Window`/`TimeSeries`, and
at a bare invocation splices a fresh `Filter(invocation, True)` node in at
the point of discovery (as the new root when the spine is empty, else as
the innermost pass-through or join parent's traversed child), returning it
paired with that filter node. -/
theorem findOrMakeFilterTable_cases (p : List PassStep) :
    (∀ t, findOrMakeFilterTable (plug p (.aggregation t)) = .ok none) ∧
    (∀ n, findOrMakeFilterTable (plug p (.varRef n)) = .ok none) ∧
    (∀ n, findOrMakeFilterTable (plug p (.resultRef n)) = .ok none) ∧
    (∀ ts, findOrMakeFilterTable (plug p (.sequence ts)) = .error ()) ∧
    (∀ t, findOrMakeFilterTable (plug p (.history t)) = .error ()) ∧
    (∀ t, findOrMakeFilterTable (plug p (.window t)) = .error ()) ∧
    (∀ t, findOrMakeFilterTable (plug p (.timeSeries t)) = .error ()) ∧
    (∀ s, findOrMakeFilterTable (plug p (.invocation s)) =
      .ok (some (plug p (.filter (.invocation s) .true),
        .filter (.invocation s) .true))) := by
  refine ⟨?_, ?_, ?_, ?_, ?_, ?_, ?_, ?_⟩ <;>
    (intro x
     rw [findOrMake_plug]
     simp [findOrMakeFilterTable])

/-- C9: identity neutralization is idempotent and preserves membership of
every non-identifier field in the constrained parameter set. -/
theorem neutralizeIDFilter_idem_params (f : BoolExp) :
    neutralizeIDFilter (neutralizeIDFilter f) = neutralizeIDFilter f ∧
    ∀ x, x ≠ "id" →
      (x ∈ getParamsInFilter (neutralizeIDFilter f) ↔ x ∈ getParamsInFilter f) :=
  ⟨neutralize_idem f, fun x hx => params_neutralize f x hx⟩

/-- Concrete filter for exercising identity neutralization. -/
def c9Filter : BoolExp :=
  .and [.atom "id" "==" (.str "r1"), .atom "cuisine" "==" (.str "italian")]

theorem neutralizeIDFilter_idem_params_witness :
    neutralizeIDFilter (neutralizeIDFilter c9Filter) = neutralizeIDFilter c9Filter ∧
    ("cuisine" ∈ getParamsInFilter (neutralizeIDFilter c9Filter) ↔
      "cuisine" ∈ getParamsInFilter c9Filter) :=
  ⟨(neutralizeIDFilter_idem_params c9Filter).1,
   (neutralizeIDFilter_idem_params c9Filter).2 "cuisine" (by decide)⟩

/-- C10: with a top result carrying no `id` value, both recommendation
constructors return null — no recommendation is produced from an id-less
top result. -/
theorem recommendation_requires_id (ctx : ContextInfo) (action : Invocation)
    (name : Value) (top : ResultRow) (rest : List ResultRow)
    (hres : ctx.results = top :: rest) (hid : rowGet top "id" = none) :
    makeActionRecommendation ctx action = .ok none ∧
      makeRecommendation ctx name = .ok none := by
  unfold makeActionRecommendation makeRecommendation
  rw [hres]
  simp [hid]

/-- Concrete id-less result row. -/
def c10Row : ResultRow := ⟨[("f", .str "v")]⟩

/-- Concrete context whose single result lacks an identifier. -/
def c10Ctx : ContextInfo := ⟨"d:q", none, [c10Row], none, none⟩

theorem recommendation_requires_id_witness :
    makeActionRecommendation c10Ctx ⟨[]⟩ = .ok none ∧
      makeRecommendation c10Ctx (.str "x") = .ok none :=
  recommendation_requires_id c10Ctx ⟨[]⟩ (.str "x") c10Row [] rfl rfl

/-- C5: `refineFilterToAnswerQuestion` rejects exactly when some field is
constrained by both filters, and otherwise returns the simplified
conjunction of the identity-neutralized context filter with the
refinement. -/
theorem refineFilterToAnswerQuestion_spec (old new : BoolExp) :
    (refineFilterToAnswerQuestion old new = none ↔
      ∃ p, p ∈ getParamsInFilter old ∧ p ∈ getParamsInFilter new) ∧
    ((¬ ∃ p, p ∈ getParamsInFilter old ∧ p ∈ getParamsInFilter new) →
      refineFilterToAnswerQuestion old new =
        some (optimize (.and [neutralizeIDFilter old, new]))) := by
  constructor
  · rw [← setsIntersect_iff]
    by_cases h : setsIntersect (getParamsInFilter old) (getParamsInFilter new) = true
    · simp [refineFilterToAnswerQuestion, h]
    · simp [refineFilterToAnswerQuestion, h]
  · intro hn
    have h : setsIntersect (getParamsInFilter old) (getParamsInFilter new) = false := by
      rw [← Bool.not_eq_true]
      intro hc
      exact hn ((setsIntersect_iff _ _).1 hc)
    simp [refineFilterToAnswerQuestion, h]

theorem refineFilterToAnswerQuestion_spec_witness :
    refineFilterToAnswerQuestion (.atom "cuisine" "==" (.str "italian"))
        (.atom "price" "==" (.str "cheap")) =
      some (optimize (.and
        [neutralizeIDFilter (.atom "cuisine" "==" (.str "italian")),
         .atom "price" "==" (.str "cheap")])) :=
  (refineFilterToAnswerQuestion_spec _ _).2 (by simp [getParamsInFilter])

/-- Context filter negating an identity constraint. -/
def c4Old : BoolExp := .not (.atom "id" "==" (.str "r1"))

/-- Refinement filter on a fresh field. -/
def c4New : BoolExp := .atom "cuisine" "==" (.str "italian")

/-- Result row compatible with both `c4Old` and `c4New`. -/
def c4Row : ResultRow := ⟨[("cuisine", .str "italian")]⟩

/-- C4 (counterexample): with disjoint field sets the strategy succeeds,
yet a row compatible with both inputs is not compatible with the result:
neutralizing `id == _` under a negation turns a satisfied `Not` clause
into `Not(True)`, so the simplified conjunction collapses to `False`. -/
theorem answerQuestion_not_monotone :
    refineFilterToAnswerQuestion c4Old c4New = some .false ∧
    isFilterCompatibleWithResult c4Row c4Old = true ∧
    isFilterCompatibleWithResult c4Row c4New = true ∧
    isFilterCompatibleWithResult c4Row .false = false :=
  ⟨rfl, rfl, rfl, rfl⟩

/-- C4 (amended): for disjoint field sets `refineFilterToAnswerQuestion`
always succeeds, and its result is compatible with every result row that
is compatible with the identity-neutralized old filter and with the new
filter. -/
theorem answerQuestion_monotone_neutralized (old new : BoolExp) (row : ResultRow)
    (h : ¬ ∃ p, p ∈ getParamsInFilter old ∧ p ∈ getParamsInFilter new) :
    ∃ res, refineFilterToAnswerQuestion old new = some res ∧
      (isFilterCompatibleWithResult row (neutralizeIDFilter old) = true →
       isFilterCompatibleWithResult row new = true →
       isFilterCompatibleWithResult row res = true) := by
  have hguard : setsIntersect (getParamsInFilter old) (getParamsInFilter new) = false := by
    rw [← Bool.not_eq_true]
    intro hc
    exact h ((setsIntersect_iff _ _).1 hc)
  refine ⟨optimize (.and [neutralizeIDFilter old, new]), ?_, ?_⟩
  · simp [refineFilterToAnswerQuestion, hguard]
  · intro h1 h2
    rw [compat_optimize]
    simp [isFilterCompatibleWithResult, compatAll, h1, h2]

theorem answerQuestion_monotone_neutralized_witness :
    ∃ res, refineFilterToAnswerQuestion (.atom "a" "==" (.str "1"))
        (.atom "b" "==" (.str "2")) = some res ∧
      (isFilterCompatibleWithResult ⟨[("a", .str "1"), ("b", .str "2")]⟩
          (neutralizeIDFilter (.atom "a" "==" (.str "1"))) = true →
       isFilterCompatibleWithResult ⟨[("a", .str "1"), ("b", .str "2")]⟩
          (.atom "b" "==" (.str "2")) = true →
       isFilterCompatibleWithResult ⟨[("a", .str "1"), ("b", .str "2")]⟩ res = true) :=
  answerQuestion_monotone_neutralized _ _ _ (by simp [getParamsInFilter])

/-- Two result rows for the top-3 grounding counterexample. -/
def c3Rows : List ResultRow :=
  [⟨[("a", .num 1), ("b", .num 3)]⟩, ⟨[("a", .num 0), ("b", .num 2)]⟩]

/-- Slot bag whose fields are each witnessed by a different row. -/
def c3Bag : SlotBag := ⟨"d", "q", [("a", .num 1), ("b", .num 2)]⟩

/-- C3 (counterexample): the per-field reading of the claim accepts this
bag (field `a` is witnessed by the first row, field `b` by the second),
but the implementation demands a single row satisfying all fields and
rejects it. -/
theorem top3_not_per_field :
    infoCompatibleTop3 c3Rows c3Bag = false ∧
    infoCompatibleTop3Spec c3Rows c3Bag = true :=
  ⟨rfl, rfl⟩

/-- C3 (amended): the top-3 grounding check returns true iff at least one
single row among the first three satisfies, for every field of the bag,
the field-presence and array-subset/scalar-equality condition. -/
theorem top3_single_row (results : List ResultRow) (info : SlotBag) :
    infoCompatibleTop3 results info = true ↔
      ∃ r ∈ results.take 3, ∀ p ∈ info.slots, slotValueCompatible r p.1 p.2 = true := by
  simp [infoCompatibleTop3, isInfoPhraseCompatibleWithResult, List.any_eq_true,
    List.all_eq_true]

/-- Context with active projection `["a"]` and one result row. -/
def c2Ctx : ContextInfo :=
  ⟨"d:q", some ["a"], [⟨[("a", .str "1"), ("b", .str "2")]⟩], none, none⟩

/-- Slot bag carrying the projected field `a` plus the extra field `b`. -/
def c2Bag : SlotBag := ⟨"d", "q", [("a", .str "1"), ("b", .str "2")]⟩

/-- C2 (counterexample): with the active projection set, a bag containing
a field outside the projection is accepted — the implementation checks
that every projected field is in the bag, not that every bag field is in
the projection. -/
theorem checkInfoPhrase_extra_field_accepted :
    c2Ctx.projection = some ["a"] ∧
    checkInfoPhrase c2Ctx c2Bag = .ok (some c2Bag) ∧
    c2Bag.has "b" = true ∧
    "b" ∉ (["a"] : List String) :=
  ⟨rfl, rfl, rfl, by decide⟩

/-- C2 (amended): with the active projection set and function identities
matching, `checkInfoPhrase` accepts only when every field of the active
projection is present in the slot bag; a bag missing some projection field
is rejected (null). -/
theorem checkInfoPhrase_projection_in_bag (ctx : ContextInfo) (info : SlotBag)
    (proj : List String) (hproj : ctx.projection = some proj) :
    ((∃ name ∈ proj, info.has name = false) → checkInfoPhrase ctx info = .ok none) ∧
    (∀ res, checkInfoPhrase ctx info = .ok (some res) →
      ∀ name ∈ proj, info.has name = true) := by
  unfold checkInfoPhrase
  rw [hproj]
  by_cases hfn : (ctx.currentFunction != info.schemaClass ++ ":" ++ info.schemaName) = true
  · simp only [hfn, if_true]
    constructor
    · intro _
      trivial
    · intro res hres
      exact absurd hres (by simp)
  · simp only [hfn, Bool.false_eq_true, if_false]
    by_cases hall : proj.all (fun name => info.has name) = true
    · simp only [hall, if_true]
      constructor
      · intro hex
        rcases hex with ⟨name, hn, hf⟩
        exact absurd (List.all_eq_true.1 hall name hn) (by simp [hf])
      · intro res _ name hn
        exact List.all_eq_true.1 hall name hn
    · simp only [hall, Bool.false_eq_true, if_false]
      constructor
      · intro _
        trivial
      · intro res hres
        exact absurd hres (by simp)

/-- Accepting context for the projection-containment witness. -/
def c2wCtx : ContextInfo :=
  ⟨"d:q", some ["a"], [⟨[("a", .str "1")]⟩], none, none⟩

/-- Accepted bag for the projection-containment witness. -/
def c2wBag : SlotBag := ⟨"d", "q", [("a", .str "1")]⟩

theorem checkInfoPhrase_projection_in_bag_witness :
    SlotBag.has c2wBag "a" = true :=
  (checkInfoPhrase_projection_in_bag c2wCtx c2wBag ["a"] rfl).2 c2wBag rfl "a"
    (by decide)

/-- C6: `refineFilterToChangeFilter` rejects whenever the refinement
constrains a (top-level slot) field absent from the context filter,
rejects whenever some common field carries an identical clause in both,
and otherwise returns the simplification of the context's top-level
clauses whose fields do not appear in the refinement and which contain no
`External` sub-predicate, followed by the whole refinement. -/
theorem refineFilterToChangeFilter_spec (old new : BoolExp) :
    ((∃ k, k ∈ (filterToSlots new).map Prod.fst ∧
        k ∉ (filterToSlots old).map Prod.fst) →
      refineFilterToChangeFilter old new = none) ∧
    ((∃ k c, slotsGet (filterToSlots old) k = some c ∧
        slotsGet (filterToSlots new) k = some c) →
      refineFilterToChangeFilter old new = none) ∧
    ((¬ ∃ k, k ∈ (filterToSlots new).map Prod.fst ∧
        k ∉ (filterToSlots old).map Prod.fst) →
     (¬ ∃ k c, slotsGet (filterToSlots old) k = some c ∧
        slotsGet (filterToSlots new) k = some c) →
      refineFilterToChangeFilter old new =
        some (optimize (.and ((topClauses (optimize old)).filter
          (clauseGood (optimize new)) ++ [optimize new])))) := by
  have heq : refineFilterToChangeFilter old new =
      (if (filterToSlots (optimize old)).any (fun p =>
          match slotsGet (filterToSlots (optimize new)) p.1 with
          | some rcl => beqB rcl p.2
          | none => Bool.false) = true then none
       else if (filterToSlots (optimize new)).any (fun p =>
          (slotsGet (filterToSlots (optimize old)) p.1).isNone) = true then none
       else some (optimize (.and ((topClauses (optimize old)).filter
          (clauseGood (optimize new)) ++ [optimize new])))) := rfl
  rw [filterToSlots_optimize old, filterToSlots_optimize new] at heq
  refine ⟨?_, ?_, ?_⟩
  · intro hex
    rcases hex with ⟨k, hkr, hko⟩
    rw [heq]
    by_cases hg1 : (filterToSlots old).any (fun p =>
        match slotsGet (filterToSlots new) p.1 with
        | some rcl => beqB rcl p.2
        | none => Bool.false) = true
    · simp [hg1]
    · have hg2 : (filterToSlots new).any (fun p =>
          (slotsGet (filterToSlots old) p.1).isNone) = true := by
        rw [List.any_eq_true]
        rcases List.mem_map.1 hkr with ⟨q, hq, hqk⟩
        refine ⟨q, hq, ?_⟩
        rw [Option.isNone_iff_eq_none, hqk]
        exact (slotsGet_none_iff _ _).2 hko
      simp [hg1, hg2]
  · intro hex
    rcases hex with ⟨k, c, hco, hcn⟩
    rw [heq]
    have hg1 : (filterToSlots old).any (fun p =>
        match slotsGet (filterToSlots new) p.1 with
        | some rcl => beqB rcl p.2
        | none => Bool.false) = true := by
      rw [List.any_eq_true]
      refine ⟨(k, c), mem_of_slotsGet _ _ _ hco, ?_⟩
      simp only
      rw [hcn]
      exact beqB_refl c
    simp [hg1]
  · intro hN hS
    rw [heq]
    have hg1 : (filterToSlots old).any (fun p =>
        match slotsGet (filterToSlots new) p.1 with
        | some rcl => beqB rcl p.2
        | none => Bool.false) = false := by
      rw [List.any_eq_false]
      intro q hq
      cases hr : slotsGet (filterToSlots new) q.1 with
      | none => simp [hr]
      | some rcl =>
          simp only [hr]
          intro hbe
          refine hS ⟨q.1, q.2, ?_, ?_⟩
          · exact slotsGet_of_mem _ (filterToSlots_nodupKeys old) _ _ (by simpa using hq)
          · rw [hr, beqB_eq _ _ hbe]
    have hg2 : (filterToSlots new).any (fun p =>
        (slotsGet (filterToSlots old) p.1).isNone) = false := by
      rw [List.any_eq_false]
      intro q hq
      rw [Option.isNone_iff_eq_none]
      intro hnone
      refine hN ⟨q.1, List.mem_map.2 ⟨q, hq, rfl⟩, ?_⟩
      exact (slotsGet_none_iff _ _).1 hnone
    simp [hg1, hg2]

/-- Context filter for the changeFilter witness. -/
def c6Old : BoolExp :=
  .and [.atom "rating" ">=" (.num 4), .atom "cuisine" "==" (.str "thai")]

/-- Refinement changing the rating clause of `c6Old`. -/
def c6New : BoolExp := .atom "rating" ">=" (.num 3)

theorem refineFilterToChangeFilter_spec_witness :
    refineFilterToChangeFilter c6Old c6New =
      some (optimize (.and ((topClauses (optimize c6Old)).filter
        (clauseGood (optimize c6New)) ++ [optimize c6New]))) :=
  (refineFilterToChangeFilter_spec c6Old c6New).2.2
    (by
      intro hex
      rcases hex with ⟨k, hkr, hko⟩
      have e1 : (filterToSlots c6New).map Prod.fst = ["rating"] := rfl
      have e2 : (filterToSlots c6Old).map Prod.fst = ["rating", "cuisine"] := rfl
      rw [e1] at hkr
      rw [e2] at hko
      simp only [List.mem_singleton] at hkr
      subst hkr
      simp at hko)
    (by
      intro hex
      rcases hex with ⟨k, c, hco, hcn⟩
      have hm := mem_of_slotsGet _ _ _ hcn
      have e3 : filterToSlots c6New = [("rating", .atom "rating" ">=" (.num 3))] := rfl
      rw [e3] at hm
      simp only [List.mem_singleton, Prod.mk.injEq] at hm
      rcases hm with ⟨hk, hc⟩
      subst hk
      subst hc
      have e4 : slotsGet (filterToSlots c6Old) "rating" =
          some (.atom "rating" ">=" (.num 4)) := rfl
      rw [e4] at hco
      simp at hco)

/-- C7: `refineFilterToAnswerQuestionOrChangeFilter` rejects whenever a
(top-level slot) field of the context filter appears negated at top level
in the refinement; and for fields slotted in both filters it rejects when
the context clause is a `DontCare`, rejects when the clauses are
identical, and rejects as soon as a second field with a differing clause
is found (at most one field may change). -/
theorem refineFilterToAQOCF_spec (old new : BoolExp) :
    ((∃ k, k ∈ (filterToSlots old).map Prod.fst ∧
        k ∈ (filterToNegatedSlots new).map Prod.fst) →
      refineFilterToAnswerQuestionOrChangeFilter old new = none) ∧
    ((∃ k c, slotsGet (filterToSlots old) k = some c ∧ isDontCareB c = true ∧
        k ∈ (filterToSlots new).map Prod.fst) →
      refineFilterToAnswerQuestionOrChangeFilter old new = none) ∧
    ((∃ k c, slotsGet (filterToSlots old) k = some c ∧
        slotsGet (filterToSlots new) k = some c) →
      refineFilterToAnswerQuestionOrChangeFilter old new = none) ∧
    ((∃ k1 c1 r1 k2 c2 r2, k1 ≠ k2 ∧
        slotsGet (filterToSlots old) k1 = some c1 ∧
        slotsGet (filterToSlots new) k1 = some r1 ∧ r1 ≠ c1 ∧
        slotsGet (filterToSlots old) k2 = some c2 ∧
        slotsGet (filterToSlots new) k2 = some r2 ∧ r2 ≠ c2) →
      refineFilterToAnswerQuestionOrChangeFilter old new = none) := by
  have heq : refineFilterToAnswerQuestionOrChangeFilter old new =
      (if aqocfLoopOk (filterToSlots (optimize new))
          (filterToNegatedSlots (optimize new))
          (filterToSlots (optimize old)) none = true then
        some (optimize (.and
          ((((topClauses (optimize old)).filter (fun clause =>
              match clause with
              | .atom n _ _ => !(slotsGet (filterToSlots (optimize new)) n).isSome
              | .dontCare n => !(slotsGet (filterToSlots (optimize new)) n).isSome
              | _ => Bool.true)).map neutralizeIDFilter) ++ [optimize new])))
       else none) := rfl
  rw [filterToSlots_optimize old, filterToSlots_optimize new,
    filterToNegatedSlots_optimize new] at heq
  refine ⟨?_, ?_, ?_, ?_⟩
  · intro hex
    rcases hex with ⟨k, hk1, hk2⟩
    have hloop := aqocf_reject (filterToSlots new) (filterToNegatedSlots new)
      (filterToSlots old) none (Or.inl ⟨k, hk1, hk2⟩)
    rw [heq]
    simp [hloop]
  · intro hex
    rcases hex with ⟨k, c, hget, hdc, hkr⟩
    have hloop := aqocf_reject (filterToSlots new) (filterToNegatedSlots new)
      (filterToSlots old) none (Or.inr (Or.inl
        ⟨k, c, mem_of_slotsGet _ _ _ hget, hdc,
          (slotsGet_isSome_iff _ _).2 hkr⟩))
    rw [heq]
    simp [hloop]
  · intro hex
    rcases hex with ⟨k, c, hget, hgetr⟩
    have hloop := aqocf_reject (filterToSlots new) (filterToNegatedSlots new)
      (filterToSlots old) none (Or.inr (Or.inr (Or.inl
        ⟨k, c, mem_of_slotsGet _ _ _ hget, hgetr⟩)))
    rw [heq]
    simp [hloop]
  · intro hex
    rcases hex with ⟨k1, c1, r1, k2, c2, r2, hne, hg1, hr1, _, hg2, hr2, _⟩
    have hloop := aqocf_reject (filterToSlots new) (filterToNegatedSlots new)
      (filterToSlots old) none (Or.inr (Or.inr (Or.inr (Or.inr
        ⟨k1, c1, k2, c2, mem_of_slotsGet _ _ _ hg1, mem_of_slotsGet _ _ _ hg2,
          hne, by rw [hr1]; rfl, by rw [hr2]; rfl⟩))))
    rw [heq]
    simp [hloop]

/-- Context filter constraining `cuisine`. -/
def c7Old : BoolExp := .atom "cuisine" "==" (.str "thai")

/-- Refinement negating the previously constrained `cuisine`. -/
def c7New : BoolExp := .not (.atom "cuisine" "==" (.str "chinese"))

theorem refineFilterToAQOCF_spec_witness :
    refineFilterToAnswerQuestionOrChangeFilter c7Old c7New = none :=
  (refineFilterToAQOCF_spec c7Old c7New).1 ⟨"cuisine", by decide, by decide⟩
